import Mathlib

/-!
Shallow embedding of the core logic of the MyMemoryGame repository
(`src/memory.py`, `src/i18n.py`) and proofs about it.

The game logic lives in the class `MemoryApp` of `memory.py`.  The
state-relevant attributes (set in `reset_game_state` and `start_game`)
are embedded as the structure `GameState`; the methods `flip_card`,
`check_match` and `next_player` become pure state transformers.  Tk
widget manipulation (button images, colors, sounds, dialogs) carries no
game state and is dropped.  Card face images are Tk `PhotoImage`
objects compared by object identity in `check_match`; `prepare_cards`
duplicates one object per pair, so identity of `cards[i]` coincides
with pair identity.  We model a card face as a `Nat` identity.
-/

/-- State of a running game: the attributes of `MemoryApp` that the
match state machine reads and writes (`memory.py`, `reset_game_state`
and `start_game`). `cards` holds the image identity of each board
index, `cardPaths` the source file path of each index (Python uses
`None`/file paths; `""` models the falsy values), `flipped` the
face-up unmatched selection in flip order, `matched` the set of
matched indices, `cardOwner` the `card_owner` dict as an association
list, `matchedPaths` the gallery `matched_paths` as (path, player)
entries in append order. -/
structure GameState where
  numCards : Nat
  numPlayers : Nat
  cards : List Nat
  cardPaths : List String
  flipped : List Nat
  matched : Finset Nat
  currentPlayer : Nat
  playerScores : List Nat
  cardOwner : List (Nat × Nat)
  matchedPaths : List (String × Nat)
deriving DecidableEq

/-- Python dict assignment `d[k] = v` on an association list: an
existing key keeps its position and gets the new value, a new key is
appended (insertion order semantics of Python dicts). -/
def dictInsert (m : List (Nat × Nat)) (k v : Nat) : List (Nat × Nat) :=
  if m.any (fun p => p.1 = k) then
    m.map (fun p => if p.1 = k then (k, v) else p)
  else
    m ++ [(k, v)]

/-- Python `self.player_scores[self.current_player] += 1` on a list:
increment the entry at index `i` (out-of-range indices, which raise in
Python, leave the list unchanged here; reachable states keep the index
in range). -/
def incAt (l : List Nat) (i : Nat) : List Nat :=
  l.set i (l.getD i 0 + 1)

/-- Embedding of `MemoryApp.flip_card` (memory.py lines 1929-1937),
state part only: rejected when the index is matched, already flipped,
or two cards are already face-up; otherwise the index is appended to
the flipped selection.  (The Tk button image change and the deferred
`check_match` callback carry no game state.) -/
def flip_card (s : GameState) (idx : Nat) : GameState :=
  if idx ∈ s.matched ∨ idx ∈ s.flipped then s
  else if 2 ≤ s.flipped.length then s
  else { s with flipped := s.flipped ++ [idx] }

/-- Embedding of `MemoryApp.next_player` (memory.py lines 2060-2064):
with more than one player, advance `current_player` cyclically;
otherwise do nothing. -/
def next_player (s : GameState) : GameState :=
  if s.numPlayers ≤ 1 then s
  else { s with currentPlayer := (s.currentPlayer + 1) % s.numPlayers }

/-- Embedding of `MemoryApp.check_match` (memory.py lines 1939-1970),
state part only.  With exactly two flipped indices `i1, i2`: on equal
card identity, both become matched and owned by the current player,
that player's score is incremented, and the card's path is appended to
the gallery when the path list is nonempty, the path is truthy, and no
gallery entry has that path; on unequal identity `next_player` runs.
In both cases the flipped selection is cleared.  (`finish_game` only
drives UI dialogs.) -/
def check_match (s : GameState) : GameState :=
  if s.flipped.length = 2 then
    let i1 := s.flipped.getD 0 0
    let i2 := s.flipped.getD 1 0
    if s.cards.getD i1 0 = s.cards.getD i2 0 then
      let path := s.cardPaths.getD i1 ""
      let gallery :=
        if s.cardPaths ≠ [] ∧ path ≠ "" ∧
            (s.matchedPaths.any (fun e => e.1 = path)) = false then
          s.matchedPaths ++ [(path, s.currentPlayer)]
        else s.matchedPaths
      { s with
        matched := s.matched ∪ {i1, i2}
        cardOwner := dictInsert (dictInsert s.cardOwner i1 s.currentPlayer)
          i2 s.currentPlayer
        playerScores := incAt s.playerScores s.currentPlayer
        matchedPaths := gallery
        flipped := [] }
    else
      { next_player s with flipped := [] }
  else s

/-- State immediately after `start_game` plus board construction
(memory.py lines 1435-1447 and 1496-1501): `num_pairs >= 1` is
enforced at line 1381, `num_players >= 1` at line 1393, `num_cards =
num_pairs * 2` at line 1439, scores are zeroed, the current player is
player 0, the selections are empty, and `prepare_cards` fills `cards`
and `card_paths` with `num_cards` entries whose paths are nonempty
file paths.  `matched_paths` is `[]` from `reset_game_state` (line
412), which runs before every visit to the menu. -/
def validInit (s : GameState) : Prop :=
  1 ≤ s.numPlayers ∧
  s.numCards % 2 = 0 ∧
  2 ≤ s.numCards ∧
  s.cards.length = s.numCards ∧
  s.cardPaths.length = s.numCards ∧
  (∀ p ∈ s.cardPaths, p ≠ "") ∧
  s.currentPlayer = 0 ∧
  s.playerScores = List.replicate s.numPlayers 0 ∧
  s.cardOwner = [] ∧
  s.flipped = [] ∧
  s.matched = ∅ ∧
  s.matchedPaths = []

instance (s : GameState) : Decidable (validInit s) := by
  unfold validInit; infer_instance

/-- One event of the running game: a click on board button `idx`
(`create_board` wires button `i` to `flip_card(i)` for `i <
num_cards`), or the deferred `check_match` evaluation. -/
inductive Step (s : GameState) : GameState → Prop
  | flip (idx : Nat) (h : idx < s.numCards) : Step s (flip_card s idx)
  | eval : Step s (check_match s)

/-- States reachable from a fresh game by flip and evaluation steps. -/
inductive Reachable : GameState → Prop
  | init (s : GameState) (h : validInit s) : Reachable s
  | step (s t : GameState) (hr : Reachable s) (hs : Step s t) : Reachable t

/-- Invariant of reachable game states: the flipped selection is short,
duplicate-free, unmatched and on the board; the current player is in
range and the score list has one entry per player; the gallery has no
duplicate paths; twice the total score equals the matched count. -/
structure GameInv (s : GameState) : Prop where
  onePlayer : 1 ≤ s.numPlayers
  cur : s.currentPlayer < s.numPlayers
  scoresLen : s.playerScores.length = s.numPlayers
  pathsLen : s.cardPaths.length = s.numCards
  pathsNE : ∀ p ∈ s.cardPaths, p ≠ ""
  twoCards : 2 ≤ s.numCards
  flipLen : s.flipped.length ≤ 2
  flipNodup : s.flipped.Nodup
  flipNotMatched : ∀ i ∈ s.flipped, i ∉ s.matched
  flipLt : ∀ i ∈ s.flipped, i < s.numCards
  score2 : 2 * s.playerScores.sum = s.matched.card
  galleryNodup : (s.matchedPaths.map Prod.fst).Nodup

lemma incAt_length (l : List Nat) (i : Nat) :
    (incAt l i).length = l.length := by
  simp [incAt]

lemma incAt_sum (l : List Nat) (i : Nat) (h : i < l.length) :
    (incAt l i).sum = l.sum + 1 := by
  induction l generalizing i with
  | nil => simp at h
  | cons x xs ih =>
    cases i with
    | zero => simp [incAt]; omega
    | succ j =>
      have hj : j < xs.length := by simpa using h
      have h2 := ih j hj
      have hstep : incAt (x :: xs) (j + 1) = x :: incAt xs j := by
        simp [incAt, List.getD_cons_succ]
      rw [hstep, List.sum_cons, List.sum_cons, h2]
      omega

lemma validInit_inv (s : GameState) (h : validInit s) : GameInv s := by
  obtain ⟨h1, h2, h3, h4, h5, h6, h7, h8, h9, h10, h11, h12⟩ := h
  refine ⟨h1, ?_, ?_, h5, h6, h3, ?_, ?_, ?_, ?_, ?_, ?_⟩ <;>
    simp [h7, h8, h10, h11, h12]
  omega

lemma flip_card_inv (s : GameState) (idx : Nat) (hlt : idx < s.numCards)
    (hi : GameInv s) : GameInv (flip_card s idx) := by
  unfold flip_card
  split
  · exact hi
  · split
    · exact hi
    · rename_i hmem hlen
      push_neg at hmem
      have hlen1 : s.flipped.length ≤ 1 := by omega
      refine ⟨hi.onePlayer, hi.cur, hi.scoresLen, hi.pathsLen, hi.pathsNE,
        hi.twoCards, ?_, ?_, ?_, ?_, hi.score2, hi.galleryNodup⟩
      · simp; omega
      · simpa [List.nodup_append] using ⟨hi.flipNodup, hmem.2⟩
      · intro i hi2
        rcases List.mem_append.1 hi2 with h | h
        · exact hi.flipNotMatched i h
        · simp at h; subst h; exact hmem.1
      · intro i hi2
        rcases List.mem_append.1 hi2 with h | h
        · exact hi.flipLt i h
        · simp at h; subst h; exact hlt

lemma check_match_not_two (s : GameState) (h : s.flipped.length ≠ 2) :
    check_match s = s := by
  simp [check_match, h]

lemma check_match_two (s : GameState) (a b : Nat) (hab : s.flipped = [a, b]) :
    check_match s =
      if s.cards.getD a 0 = s.cards.getD b 0 then
        { s with
          matched := s.matched ∪ {a, b}
          cardOwner := dictInsert (dictInsert s.cardOwner a s.currentPlayer)
            b s.currentPlayer
          playerScores := incAt s.playerScores s.currentPlayer
          matchedPaths :=
            if s.cardPaths ≠ [] ∧ s.cardPaths.getD a "" ≠ "" ∧
                (s.matchedPaths.any (fun e => e.1 = s.cardPaths.getD a "")) = false
            then s.matchedPaths ++ [(s.cardPaths.getD a "", s.currentPlayer)]
            else s.matchedPaths
          flipped := [] }
      else { next_player s with flipped := [] } := by
  simp only [check_match, hab]
  simp

lemma next_player_current (s : GameState)
    (hc : s.currentPlayer < s.numPlayers) :
    (next_player s).currentPlayer < s.numPlayers := by
  unfold next_player
  split
  · exact hc
  · rename_i h
    show (s.currentPlayer + 1) % s.numPlayers < s.numPlayers
    exact Nat.mod_lt _ (by omega)

lemma union_pair_card (m : Finset Nat) (a b : Nat) (hne : a ≠ b)
    (ha : a ∉ m) (hb : b ∉ m) : (m ∪ {a, b}).card = m.card + 2 := by
  have he : m ∪ {a, b} = insert a (insert b m) := by
    ext x; simp; tauto
  rw [he, Finset.card_insert_of_not_mem (by simp [hne, ha]),
    Finset.card_insert_of_not_mem hb]

lemma not_mem_map_of_any_false (l : List (String × Nat)) (p : String)
    (h : (l.any (fun e => e.1 = p)) = false) : p ∉ l.map Prod.fst := by
  simp only [List.any_eq_false, decide_eq_true_eq] at h
  intro hmem
  obtain ⟨e, he, hep⟩ := List.mem_map.1 hmem
  exact h e he hep

@[simp] lemma next_player_numCards (s : GameState) :
    (next_player s).numCards = s.numCards := by
  unfold next_player; split <;> rfl

@[simp] lemma next_player_numPlayers (s : GameState) :
    (next_player s).numPlayers = s.numPlayers := by
  unfold next_player; split <;> rfl

@[simp] lemma next_player_cards (s : GameState) :
    (next_player s).cards = s.cards := by
  unfold next_player; split <;> rfl

@[simp] lemma next_player_cardPaths (s : GameState) :
    (next_player s).cardPaths = s.cardPaths := by
  unfold next_player; split <;> rfl

@[simp] lemma next_player_flipped (s : GameState) :
    (next_player s).flipped = s.flipped := by
  unfold next_player; split <;> rfl

@[simp] lemma next_player_matched (s : GameState) :
    (next_player s).matched = s.matched := by
  unfold next_player; split <;> rfl

@[simp] lemma next_player_playerScores (s : GameState) :
    (next_player s).playerScores = s.playerScores := by
  unfold next_player; split <;> rfl

@[simp] lemma next_player_cardOwner (s : GameState) :
    (next_player s).cardOwner = s.cardOwner := by
  unfold next_player; split <;> rfl

@[simp] lemma next_player_matchedPaths (s : GameState) :
    (next_player s).matchedPaths = s.matchedPaths := by
  unfold next_player; split <;> rfl

lemma check_match_inv (s : GameState) (hi : GameInv s) :
    GameInv (check_match s) := by
  by_cases h2 : s.flipped.length = 2
  · obtain ⟨a, b, hab⟩ := List.length_eq_two.1 h2
    have hne : a ≠ b := by
      have hnd := hi.flipNodup
      rw [hab] at hnd
      simp at hnd
      exact hnd
    have ham : a ∉ s.matched := hi.flipNotMatched a (by rw [hab]; simp)
    have hbm : b ∉ s.matched := hi.flipNotMatched b (by rw [hab]; simp)
    rw [check_match_two s a b hab]
    by_cases heq : s.cards.getD a 0 = s.cards.getD b 0
    · rw [if_pos heq]
      have hcur : s.currentPlayer < s.playerScores.length := by
        rw [hi.scoresLen]; exact hi.cur
      refine ⟨hi.onePlayer, hi.cur, ?_, hi.pathsLen, hi.pathsNE, hi.twoCards,
        ?_, ?_, ?_, ?_, ?_, ?_⟩
      · simpa [incAt_length] using hi.scoresLen
      · simp
      · simp
      · simp
      · simp
      · show 2 * (incAt s.playerScores s.currentPlayer).sum =
          (s.matched ∪ {a, b}).card
        rw [incAt_sum _ _ hcur, union_pair_card s.matched a b hne ham hbm]
        have := hi.score2
        omega
      · show (List.map Prod.fst
          (if s.cardPaths ≠ [] ∧ s.cardPaths.getD a "" ≠ "" ∧
              (s.matchedPaths.any (fun e => e.1 = s.cardPaths.getD a "")) = false
           then s.matchedPaths ++ [(s.cardPaths.getD a "", s.currentPlayer)]
           else s.matchedPaths)).Nodup
        split
        · rename_i hcond
          have hnm := not_mem_map_of_any_false s.matchedPaths _ hcond.2.2
          simp only [List.map_append, List.map_cons, List.map_nil]
          rw [List.nodup_append]
          refine ⟨hi.galleryNodup, by simp, ?_⟩
          intro x hx hx2
          rw [List.mem_singleton] at hx2
          subst hx2
          exact hnm hx
        · exact hi.galleryNodup
    · rw [if_neg heq]
      refine ⟨?_, ?_, ?_, ?_, ?_, ?_, ?_, ?_, ?_, ?_, ?_, ?_⟩
      · simpa using hi.onePlayer
      · simpa using next_player_current s hi.cur
      · simpa using hi.scoresLen
      · simpa using hi.pathsLen
      · simpa using hi.pathsNE
      · simpa using hi.twoCards
      · simp
      · simp
      · simp
      · simp
      · simpa using hi.score2
      · simpa using hi.galleryNodup
  · rw [check_match_not_two s h2]
    exact hi

lemma step_inv (s t : GameState) (hs : Step s t) (hi : GameInv s) :
    GameInv t := by
  cases hs with
  | flip idx h => exact flip_card_inv s idx h hi
  | eval => exact check_match_inv s hi

lemma reachable_inv (s : GameState) (hr : Reachable s) : GameInv s := by
  induction hr with
  | init s h => exact validInit_inv s h
  | step s t hr hs ih => exact step_inv s t hs ih

/-- Concrete fresh two-player game on a 4-card board (two pairs with
identities 1 and 2 and source paths "imgA", "imgB"). -/
def sampleInit : GameState :=
  { numCards := 4, numPlayers := 2, cards := [1, 1, 2, 2],
    cardPaths := ["imgA", "imgA", "imgB", "imgB"], flipped := [],
    matched := ∅, currentPlayer := 0, playerScores := [0, 0],
    cardOwner := [], matchedPaths := [] }

lemma sampleInit_valid : validInit sampleInit := by decide

/-- Two mismatching cards face-up (indices 0 and 2). -/
def sampleMismatch : GameState := flip_card (flip_card sampleInit 0) 2

lemma sampleMismatch_reachable : Reachable sampleMismatch :=
  Reachable.step _ _
    (Reachable.step _ _ (Reachable.init _ sampleInit_valid)
      (Step.flip 0 (by decide)))
    (Step.flip 2 (by decide))

/-- Two matching cards face-up (indices 0 and 1). -/
def sampleTwoUp : GameState := flip_card (flip_card sampleInit 0) 1

lemma sampleTwoUp_reachable : Reachable sampleTwoUp :=
  Reachable.step _ _
    (Reachable.step _ _ (Reachable.init _ sampleInit_valid)
      (Step.flip 0 (by decide)))
    (Step.flip 1 (by decide))

/-- State after the first pair has been matched. -/
def sampleOnePair : GameState := check_match sampleTwoUp

lemma sampleOnePair_reachable : Reachable sampleOnePair :=
  Reachable.step _ _ sampleTwoUp_reachable Step.eval

/-- State after a full play-through of the 4-card board. -/
def sampleDone : GameState :=
  check_match (flip_card (flip_card sampleOnePair 2) 3)

lemma sampleDone_reachable : Reachable sampleDone :=
  Reachable.step _ _
    (Reachable.step _ _
      (Reachable.step _ _ sampleOnePair_reachable (Step.flip 2 (by decide)))
      (Step.flip 3 (by decide)))
    Step.eval

/-- C1: in every reachable state with exactly two flipped cards, when
the two identities differ `check_match` clears the selection (both
cards go back face-down, neither is matched) and sets the current
player to `(current + 1) mod playerCount`; when they are equal the
current player is unchanged.  With one player `next_player` returns
early, which agrees with the formula because `(0 + 1) % 1 = 0`. -/
theorem check_match_turn_advance (s : GameState) (hr : Reachable s)
    (a b : Nat) (hab : s.flipped = [a, b]) :
    (s.cards.getD a 0 ≠ s.cards.getD b 0 →
      (check_match s).flipped = [] ∧
      (check_match s).matched = s.matched ∧
      (check_match s).currentPlayer = (s.currentPlayer + 1) % s.numPlayers) ∧
    (s.cards.getD a 0 = s.cards.getD b 0 →
      (check_match s).currentPlayer = s.currentPlayer) := by
  have hi := reachable_inv s hr
  rw [check_match_two s a b hab]
  constructor
  · intro hne
    rw [if_neg hne]
    refine ⟨rfl, by simp, ?_⟩
    show (next_player s).currentPlayer = (s.currentPlayer + 1) % s.numPlayers
    unfold next_player
    split
    · rename_i h
      have h1 := hi.onePlayer
      have hc := hi.cur
      have hp1 : s.numPlayers = 1 := by omega
      have hc0 : s.currentPlayer = 0 := by omega
      rw [hp1, hc0]
    · rfl
  · intro heq
    rw [if_pos heq]

theorem check_match_turn_advance_witness :
    (check_match sampleMismatch).flipped = [] ∧
    (check_match sampleMismatch).matched = sampleMismatch.matched ∧
    (check_match sampleMismatch).currentPlayer =
      (sampleMismatch.currentPlayer + 1) % sampleMismatch.numPlayers :=
  (check_match_turn_advance sampleMismatch sampleMismatch_reachable 0 2
    (by decide)).1 (by decide)

/-- C2: `flip_card` is a no-op (the whole state is unchanged) on a
matched index, an already flipped index, or when two cards are already
face-up; and in every reachable state the flipped selection has at
most two elements, none of them matched. -/
theorem flip_card_noop_and_selection_invariant :
    (∀ (s : GameState) (idx : Nat),
      idx ∈ s.matched ∨ idx ∈ s.flipped ∨ 2 ≤ s.flipped.length →
        flip_card s idx = s) ∧
    (∀ s : GameState, Reachable s →
      s.flipped.length ≤ 2 ∧ ∀ i ∈ s.flipped, i ∉ s.matched) := by
  constructor
  · intro s idx h
    unfold flip_card
    rcases h with h | h | h
    · rw [if_pos (Or.inl h)]
    · rw [if_pos (Or.inr h)]
    · by_cases hm : idx ∈ s.matched ∨ idx ∈ s.flipped
      · rw [if_pos hm]
      · rw [if_neg hm, if_pos h]
  · intro s hr
    have hi := reachable_inv s hr
    exact ⟨hi.flipLen, hi.flipNotMatched⟩

theorem flip_card_noop_witness :
    flip_card sampleMismatch 0 = sampleMismatch ∧
    sampleMismatch.flipped.length ≤ 2 :=
  ⟨flip_card_noop_and_selection_invariant.1 sampleMismatch 0
      (Or.inr (Or.inl (by decide))),
    (flip_card_noop_and_selection_invariant.2 sampleMismatch
      sampleMismatch_reachable).1⟩

lemma incAt_getD_self (l : List Nat) (i : Nat) (h : i < l.length) :
    (incAt l i).getD i 0 = l.getD i 0 + 1 := by
  induction l generalizing i with
  | nil => simp at h
  | cons x xs ih =>
    cases i with
    | zero => simp [incAt]
    | succ j =>
      have hj : j < xs.length := by simpa using h
      have hstep : incAt (x :: xs) (j + 1) = x :: incAt xs j := by
        simp [incAt, List.getD_cons_succ]
      rw [hstep, List.getD_cons_succ, List.getD_cons_succ]
      exact ih j hj

lemma incAt_getD_other (l : List Nat) (i j : Nat) (h : j ≠ i) :
    (incAt l i).getD j 0 = l.getD j 0 := by
  induction l generalizing i j with
  | nil => simp [incAt]
  | cons x xs ih =>
    cases i with
    | zero =>
      cases j with
      | zero => exact absurd rfl h
      | succ k => simp [incAt, List.getD_cons_succ]
    | succ i2 =>
      have hstep : incAt (x :: xs) (i2 + 1) = x :: incAt xs i2 := by
        simp [incAt, List.getD_cons_succ]
      rw [hstep]
      cases j with
      | zero => simp
      | succ k =>
        rw [List.getD_cons_succ, List.getD_cons_succ]
        exact ih i2 k (by omega)

lemma any_path_eq_false_iff (l : List (String × Nat)) (p : String) :
    (l.any (fun e => e.1 = p)) = false ↔ p ∉ l.map Prod.fst := by
  constructor
  · exact not_mem_map_of_any_false l p
  · intro h
    rw [List.any_eq_false]
    intro e he
    simp only [decide_eq_true_eq]
    intro hep
    exact h (List.mem_map.2 ⟨e, he, hep⟩)

/-- C3: in every reachable state with two matching face-up cards,
`check_match` adds both indices to the matched set, increments exactly
the current player's score, and appends the card's source path with
the current player as finder if and only if no gallery entry already
carries that path. -/
theorem check_match_credits_current_player (s : GameState)
    (hr : Reachable s) (a b : Nat) (hab : s.flipped = [a, b])
    (heq : s.cards.getD a 0 = s.cards.getD b 0) :
    (check_match s).matched = s.matched ∪ {a, b} ∧
    (check_match s).playerScores.getD s.currentPlayer 0 =
      s.playerScores.getD s.currentPlayer 0 + 1 ∧
    (∀ j, j ≠ s.currentPlayer →
      (check_match s).playerScores.getD j 0 = s.playerScores.getD j 0) ∧
    ((check_match s).matchedPaths =
        s.matchedPaths ++ [(s.cardPaths.getD a "", s.currentPlayer)] ↔
      s.cardPaths.getD a "" ∉ s.matchedPaths.map Prod.fst) := by
  have hi := reachable_inv s hr
  have halt : a < s.numCards := hi.flipLt a (by rw [hab]; simp)
  have halen : a < s.cardPaths.length := by rw [hi.pathsLen]; exact halt
  have hpne : s.cardPaths.getD a "" ≠ "" := by
    have hmem : s.cardPaths.getD a "" ∈ s.cardPaths := by
      rw [List.getD_eq_getElem _ _ halen]
      exact List.getElem_mem halen
    exact hi.pathsNE _ hmem
  have hcne : s.cardPaths ≠ [] := by
    intro h0
    rw [h0] at halen
    simp at halen
  have hcur : s.currentPlayer < s.playerScores.length := by
    rw [hi.scoresLen]; exact hi.cur
  rw [check_match_two s a b hab, if_pos heq]
  refine ⟨rfl, ?_, ?_, ?_⟩
  · exact incAt_getD_self s.playerScores s.currentPlayer hcur
  · intro j hj
    exact incAt_getD_other s.playerScores s.currentPlayer j hj
  · show (if s.cardPaths ≠ [] ∧ s.cardPaths.getD a "" ≠ "" ∧
        (s.matchedPaths.any (fun e => e.1 = s.cardPaths.getD a "")) = false
      then s.matchedPaths ++ [(s.cardPaths.getD a "", s.currentPlayer)]
      else s.matchedPaths) =
        s.matchedPaths ++ [(s.cardPaths.getD a "", s.currentPlayer)] ↔
      s.cardPaths.getD a "" ∉ s.matchedPaths.map Prod.fst
    by_cases hmem : s.cardPaths.getD a "" ∈ s.matchedPaths.map Prod.fst
    · rw [if_neg (fun hc => absurd hmem (not_mem_map_of_any_false _ _ hc.2.2))]
      apply iff_of_false
      · intro habs
        have hlen := congrArg List.length habs
        simp at hlen
      · exact fun hn => hn hmem
    · rw [if_pos ⟨hcne, hpne, (any_path_eq_false_iff _ _).2 hmem⟩]
      exact iff_of_true rfl hmem

theorem check_match_credits_witness :
    (check_match sampleTwoUp).matched = sampleTwoUp.matched ∪ {0, 1} ∧
    (check_match sampleTwoUp).playerScores.getD
        sampleTwoUp.currentPlayer 0 =
      sampleTwoUp.playerScores.getD sampleTwoUp.currentPlayer 0 + 1 ∧
    (∀ j, j ≠ sampleTwoUp.currentPlayer →
      (check_match sampleTwoUp).playerScores.getD j 0 =
        sampleTwoUp.playerScores.getD j 0) ∧
    ((check_match sampleTwoUp).matchedPaths =
        sampleTwoUp.matchedPaths ++
          [(sampleTwoUp.cardPaths.getD 0 "", sampleTwoUp.currentPlayer)] ↔
      sampleTwoUp.cardPaths.getD 0 "" ∉
        sampleTwoUp.matchedPaths.map Prod.fst) :=
  check_match_credits_current_player sampleTwoUp sampleTwoUp_reachable 0 1
    (by decide) (by decide)

/-- C4: in every reachable state twice the sum of the player scores
equals the size of the matched set; hence at the end of a full
play-through of a board of `2 * k` cards (all cards matched, which is
the `finish_game` condition) the matched count is `2 * k` and the
total score is `k`. -/
theorem scores_half_of_matched (s : GameState) (hr : Reachable s) :
    2 * s.playerScores.sum = s.matched.card ∧
    (∀ k, s.numCards = 2 * k → s.matched.card = s.numCards →
      s.playerScores.sum = k) := by
  have hi := reachable_inv s hr
  refine ⟨hi.score2, ?_⟩
  intro k h1 h2
  have h3 := hi.score2
  omega

theorem scores_half_of_matched_witness :
    2 * sampleDone.playerScores.sum = sampleDone.matched.card ∧
    sampleDone.playerScores.sum = 2 :=
  ⟨(scores_half_of_matched sampleDone sampleDone_reachable).1,
    (scores_half_of_matched sampleDone sampleDone_reachable).2 2
      (by decide) (by decide)⟩

/-- C5: the gallery of any reachable state contains no two entries
with the same path, and every step either leaves the gallery unchanged
or appends a single entry whose path was not yet present, recording
the then-current player — the first finder — as its player index. -/
theorem gallery_nodup_first_finder :
    (∀ s : GameState, Reachable s →
      (s.matchedPaths.map Prod.fst).Nodup) ∧
    (∀ s t : GameState, Step s t →
      t.matchedPaths = s.matchedPaths ∨
      ∃ p, p ∉ s.matchedPaths.map Prod.fst ∧
        t.matchedPaths = s.matchedPaths ++ [(p, s.currentPlayer)]) := by
  constructor
  · intro s hr
    exact (reachable_inv s hr).galleryNodup
  · intro s t hs
    cases hs with
    | flip idx h =>
      left
      unfold flip_card
      by_cases hm : idx ∈ s.matched ∨ idx ∈ s.flipped
      · rw [if_pos hm]
      · rw [if_neg hm]
        by_cases hl : 2 ≤ s.flipped.length
        · rw [if_pos hl]
        · rw [if_neg hl]
    | eval =>
      by_cases h2 : s.flipped.length = 2
      · obtain ⟨a, b, hab⟩ := List.length_eq_two.1 h2
        rw [check_match_two s a b hab]
        by_cases heq : s.cards.getD a 0 = s.cards.getD b 0
        · rw [if_pos heq]
          show (if s.cardPaths ≠ [] ∧ s.cardPaths.getD a "" ≠ "" ∧
              (s.matchedPaths.any
                (fun e => e.1 = s.cardPaths.getD a "")) = false
            then s.matchedPaths ++ [(s.cardPaths.getD a "", s.currentPlayer)]
            else s.matchedPaths) = s.matchedPaths ∨ _
          split
          · rename_i hcond
            right
            exact ⟨_, not_mem_map_of_any_false _ _ hcond.2.2, rfl⟩
          · left; rfl
        · rw [if_neg heq]
          left
          simp
      · rw [check_match_not_two s h2]
        left
        rfl

theorem gallery_nodup_first_finder_witness :
    (sampleOnePair.matchedPaths.map Prod.fst).Nodup ∧
    (sampleOnePair.matchedPaths = sampleTwoUp.matchedPaths ∨
      ∃ p, p ∉ sampleTwoUp.matchedPaths.map Prod.fst ∧
        sampleOnePair.matchedPaths =
          sampleTwoUp.matchedPaths ++ [(p, sampleTwoUp.currentPlayer)]) :=
  ⟨gallery_nodup_first_finder.1 sampleOnePair sampleOnePair_reachable,
    gallery_nodup_first_finder.2 sampleTwoUp sampleOnePair Step.eval⟩

/-- Integer ceiling of the real square root, as computed by
`math.ceil(math.sqrt(n))` in `calculate_grid` (exact for the board
sizes in range of a double). -/
def ceilSqrt (n : Nat) : Nat :=
  if Nat.sqrt n * Nat.sqrt n = n then Nat.sqrt n else Nat.sqrt n + 1

/-- Embedding of `MemoryApp.calculate_grid` (memory.py lines
1972-1975): `cols = math.ceil(math.sqrt(total_cards))`, `rows =
math.ceil(total_cards / cols)`, returned as `(rows, cols)`.  The
ceiling of the true division `total_cards / cols` is `(total_cards +
cols - 1) / cols` in natural division (Python raises on `cols = 0`,
which needs `total_cards = 0`). -/
def calculate_grid (total_cards : Nat) : Nat × Nat :=
  let cols := ceilSqrt total_cards
  let rows := (total_cards + cols - 1) / cols
  (rows, cols)

lemma ceilSqrt_eq_ceil_real_sqrt (n : Nat) :
    ceilSqrt n = ⌈Real.sqrt n⌉₊ := by
  unfold ceilSqrt
  split
  · rename_i hsq
    have hcast : (n : ℝ) = (Nat.sqrt n : ℝ) * (Nat.sqrt n : ℝ) := by
      rw [← Nat.cast_mul, hsq]
    rw [hcast, Real.sqrt_mul_self (by positivity)]
    simp
  · rename_i hsq
    have h1 : Nat.sqrt n * Nat.sqrt n ≤ n := Nat.sqrt_le n
    have h2 : Nat.sqrt n * Nat.sqrt n < n := lt_of_le_of_ne h1 hsq
    have hlt : (Nat.sqrt n : ℝ) < Real.sqrt n := by
      rw [Real.lt_sqrt (by positivity)]
      have h3 : (Nat.sqrt n : ℝ) * (Nat.sqrt n : ℝ) < (n : ℝ) := by
        exact_mod_cast h2
      nlinarith [h3]
    have hub : Real.sqrt n < (Nat.sqrt n : ℝ) + 1 :=
      Real.real_sqrt_lt_nat_sqrt_succ
    symm
    rw [Nat.ceil_eq_iff (by omega)]
    constructor
    · simpa using hlt
    · push_cast
      exact hub.le
lemma nat_ceilDiv_eq_ceil_div (n c : Nat) (hc : 1 ≤ c) :
    (n + c - 1) / c = ⌈(n : ℚ) / (c : ℚ)⌉₊ := by
  have hc0 : (0 : ℚ) < (c : ℚ) := by exact_mod_cast hc
  apply le_antisymm
  · have hle : (n : ℚ) / c ≤ (⌈(n : ℚ) / c⌉₊ : ℚ) := Nat.le_ceil _
    have hnc : (n : ℚ) ≤ (c : ℚ) * (⌈(n : ℚ) / c⌉₊ : ℚ) := by
      rw [mul_comm]
      exact (div_le_iff₀ hc0).1 hle
    have hnat : n ≤ c * ⌈(n : ℚ) / c⌉₊ := by exact_mod_cast hnc
    rw [Nat.div_le_iff_le_mul_add_pred (by omega)]
    omega
  · rw [Nat.ceil_le, div_le_iff₀ hc0, mul_comm]
    have hdm := Nat.div_add_mod (n + c - 1) c
    have hml : (n + c - 1) % c < c := Nat.mod_lt _ (by omega)
    have h1 : n ≤ c * ((n + c - 1) / c) := by omega
    exact_mod_cast h1

lemma ceilSqrt_pos (n : Nat) (h : 1 ≤ n) : 1 ≤ ceilSqrt n := by
  unfold ceilSqrt
  split
  · rename_i hsq
    rcases Nat.eq_zero_or_pos (Nat.sqrt n) with h0 | h1
    · rw [h0] at hsq
      omega
    · exact h1
  · omega

/-- C6: for every card count `n >= 1`, `calculate_grid` returns
`columns = ceil(sqrt(n))` (the ceiling of the real square root),
`rows = ceil(n / columns)` (the ceiling of the rational quotient), and
the grid covers the board: `columns * rows >= n`. -/
theorem calculate_grid_correct (n : Nat) (h : 1 ≤ n) :
    (calculate_grid n).2 = ⌈Real.sqrt n⌉₊ ∧
    (calculate_grid n).1 = ⌈(n : ℚ) / ((calculate_grid n).2 : ℚ)⌉₊ ∧
    n ≤ (calculate_grid n).2 * (calculate_grid n).1 := by
  have hc : 1 ≤ ceilSqrt n := ceilSqrt_pos n h
  refine ⟨ceilSqrt_eq_ceil_real_sqrt n, ?_, ?_⟩
  · show (n + ceilSqrt n - 1) / ceilSqrt n =
      ⌈(n : ℚ) / ((ceilSqrt n : Nat) : ℚ)⌉₊
    exact nat_ceilDiv_eq_ceil_div n (ceilSqrt n) hc
  · show n ≤ ceilSqrt n * ((n + ceilSqrt n - 1) / ceilSqrt n)
    have hdm := Nat.div_add_mod (n + ceilSqrt n - 1) (ceilSqrt n)
    have hml : (n + ceilSqrt n - 1) % ceilSqrt n < ceilSqrt n :=
      Nat.mod_lt _ (by omega)
    omega

theorem calculate_grid_correct_witness :
    1 ≤ 7 ∧
    ((calculate_grid 7).2 = ⌈Real.sqrt 7⌉₊ ∧
     (calculate_grid 7).1 = ⌈(7 : ℚ) / ((calculate_grid 7).2 : ℚ)⌉₊ ∧
     7 ≤ (calculate_grid 7).2 * (calculate_grid 7).1) :=
  ⟨by decide, calculate_grid_correct 7 (by decide)⟩

/-- Python `int(x)` on a float/rational value: truncation toward
zero. -/
def pyInt (q : ℚ) : Int := if 0 ≤ q then ⌊q⌋ else ⌈q⌉

/-- Embedding of `MemoryApp.calculate_card_size` (memory.py lines
1977-1992).  `winW`/`scrW`/`winH`/`scrH` are the Tk measurements
`winfo_width`, `winfo_screenwidth`, `winfo_height`,
`winfo_screenheight` (pixel counts); `frac` is the configured
`BOTTOM_BORDER_FRACTION` (default 0.1 in `DEFAULT_CONFIG`).  Float
arithmetic at these magnitudes is exact, so rationals model it. -/
def calculate_card_size (frac : ℚ) (rows cols : Nat)
    (winW scrW winH scrH headerHeight sidebarWidth : Nat) : Int :=
  let screen_w : Int := max (winW : Int) (scrW : Int)
  let screen_h : Int := max (winH : Int) (scrH : Int)
  let available_w : Int := max 320 (screen_w - sidebarWidth - 160)
  let available_h : Int := max 320 (screen_h - headerHeight - 160)
  let available_h2 : Int := pyInt ((available_h : ℚ) * (1 - frac))
  let size_w : ℚ := (available_w : ℚ) / (cols : ℚ)
  let size_h : ℚ := (available_h2 : ℚ) / (rows : ℚ)
  let base_size : Int := pyInt (min size_w size_h)
  let base_size2 : Int := if base_size ≤ 0 then 60 else base_size
  min base_size2 240

/-- Available width as `calculate_card_size` computes it. -/
def availableWidth (winW scrW sidebarWidth : Nat) : Int :=
  max 320 (max (winW : Int) (scrW : Int) - sidebarWidth - 160)

/-- Available height after the bottom-border reduction, as
`calculate_card_size` computes it (floor form, valid for a fraction in
`[0, 1]`). -/
def availableHeight (frac : ℚ) (winH scrH headerHeight : Nat) : Int :=
  ⌊((max 320 (max (winH : Int) (scrH : Int) - headerHeight - 160) : Int) : ℚ)
    * (1 - frac)⌋

/-- Card size as claim C7 words it: the truncated minimum of available
width per column and reduced available height per row, capped at the
maximum (240) and floored at the minimum fallback size (60). -/
def cardSizeClaimed (frac : ℚ) (rows cols : Nat)
    (winW scrW winH scrH headerHeight sidebarWidth : Nat) : Int :=
  max (min ⌊min ((availableWidth winW scrW sidebarWidth : ℚ) / (cols : ℚ))
    ((availableHeight frac winH scrH headerHeight : ℚ) / (rows : ℚ))⌋ 240) 60

/-- Card size with the corrected fallback rule: the fallback 60
replaces only a nonpositive computed size; sizes from 1 to 59 are kept
as computed; the cap 240 applies to the result. -/
def cardSizeAmended (frac : ℚ) (rows cols : Nat)
    (winW scrW winH scrH headerHeight sidebarWidth : Nat) : Int :=
  let m : Int :=
    ⌊min ((availableWidth winW scrW sidebarWidth : ℚ) / (cols : ℚ))
      ((availableHeight frac winH scrH headerHeight : ℚ) / (rows : ℚ))⌋
  min (if m ≤ 0 then 60 else m) 240

lemma pyInt_of_nonneg (q : ℚ) (h : 0 ≤ q) : pyInt q = ⌊q⌋ := if_pos h

/-- C7 counterexample: a 1 x 10 board on a 320 x 2000 viewport with
fraction 0.1 gets card size 32 from the code, while a result floored
at the minimum fallback size 60 would be 60: the code substitutes the
fallback only when the computed size is not positive. -/
theorem calculate_card_size_claim_false :
    calculate_card_size (1/10) 1 10 0 320 0 2000 0 0 = 32 ∧
    cardSizeClaimed (1/10) 1 10 0 320 0 2000 0 0 = 60 ∧
    (32 : Int) ≠ 60 := by
  refine ⟨?_, ?_, by decide⟩
  · norm_num [calculate_card_size, pyInt]
  · norm_num [cardSizeClaimed, availableWidth, availableHeight]

/-- C7 (amended): for rows, cols >= 1 and a border fraction in [0, 1],
the card size is `min(availableWidth / cols, availableHeight / rows)`
truncated to an integer, where the available height was first reduced
by the bottom-border fraction; the result is capped at the maximum 240
and, only when the computed size is not positive, replaced by the
fallback 60; the returned size always lies in [1, 240]. -/
theorem calculate_card_size_amended_correct (frac : ℚ)
    (rows cols winW scrW winH scrH headerHeight sidebarWidth : Nat)
    (hrows : 1 ≤ rows) (hcols : 1 ≤ cols)
    (hf0 : 0 ≤ frac) (hf1 : frac ≤ 1) :
    calculate_card_size frac rows cols winW scrW winH scrH
        headerHeight sidebarWidth =
      cardSizeAmended frac rows cols winW scrW winH scrH
        headerHeight sidebarWidth ∧
    1 ≤ calculate_card_size frac rows cols winW scrW winH scrH
        headerHeight sidebarWidth ∧
    calculate_card_size frac rows cols winW scrW winH scrH
        headerHeight sidebarWidth ≤ 240 := by
  have haw0 : (0 : Int) ≤
      max 320 (max (winW : Int) (scrW : Int) - sidebarWidth - 160) :=
    le_trans (by norm_num) (le_max_left _ _)
  have hah0 : (0 : Int) ≤
      max 320 (max (winH : Int) (scrH : Int) - headerHeight - 160) :=
    le_trans (by norm_num) (le_max_left _ _)
  have h1f : (0 : ℚ) ≤ 1 - frac := by linarith
  have hprod : (0 : ℚ) ≤
      ((max 320 (max (winH : Int) (scrH : Int) - headerHeight - 160) : Int)
        : ℚ) * (1 - frac) :=
    mul_nonneg (by exact_mod_cast hah0) h1f
  have hah20 : (0 : Int) ≤
      ⌊((max 320 (max (winH : Int) (scrH : Int) - headerHeight - 160) : Int)
        : ℚ) * (1 - frac)⌋ :=
    Int.floor_nonneg.2 hprod
  have hsw0 : (0 : ℚ) ≤
      ((max 320 (max (winW : Int) (scrW : Int) - sidebarWidth - 160) : Int)
        : ℚ) / (cols : ℚ) :=
    div_nonneg (by exact_mod_cast haw0) (by positivity)
  have hsh0 : (0 : ℚ) ≤
      ((⌊((max 320 (max (winH : Int) (scrH : Int) - headerHeight - 160) :
        Int) : ℚ) * (1 - frac)⌋ : Int) : ℚ) / (rows : ℚ) :=
    div_nonneg (by exact_mod_cast hah20) (by positivity)
  have heq : calculate_card_size frac rows cols winW scrW winH scrH
      headerHeight sidebarWidth =
      cardSizeAmended frac rows cols winW scrW winH scrH
        headerHeight sidebarWidth := by
    simp only [calculate_card_size, cardSizeAmended, availableWidth,
      availableHeight, pyInt_of_nonneg _ hprod]
    rw [pyInt_of_nonneg _ (le_min hsw0 hsh0)]
  refine ⟨heq, ?_, ?_⟩
  · rw [heq]
    simp only [cardSizeAmended, availableWidth, availableHeight]
    split
    · norm_num
    · rename_i hm
      simp only [le_min_iff]
      omega
  · simp only [calculate_card_size]
    exact min_le_right _ _

theorem calculate_card_size_amended_witness :
    (1 ≤ 4 ∧ 1 ≤ 5 ∧ (0 : ℚ) ≤ 1/10 ∧ (1/10 : ℚ) ≤ 1) ∧
    (calculate_card_size (1/10) 4 5 1024 1280 768 800 0 0 =
      cardSizeAmended (1/10) 4 5 1024 1280 768 800 0 0 ∧
    1 ≤ calculate_card_size (1/10) 4 5 1024 1280 768 800 0 0 ∧
    calculate_card_size (1/10) 4 5 1024 1280 768 800 0 0 ≤ 240) :=
  ⟨⟨by norm_num, by norm_num, by norm_num, by norm_num⟩,
    calculate_card_size_amended_correct (1/10) 4 5 1024 1280 768 800 0 0
      (by norm_num) (by norm_num) (by norm_num) (by norm_num)⟩

/-- The `last_settings` record of `MemoryApp` (the keys of the dict
built at memory.py lines 329-337 and 1419-1427). -/
structure Settings where
  players : Nat
  folder : String
  pairs : Nat
  names : List String
  avatars : List String
  sound_enabled : Bool
  language : String
deriving DecidableEq

/-- The `last_settings` value set by `MemoryApp.__init__` (memory.py
lines 329-337) at application startup: built-in defaults — one player,
the configured default image folder, one pair, empty name and avatar
lists, sound on, and the translator's current language.  `__init__`
takes no stored record: nothing is read from disk or any other
persistent storage. -/
def initLastSettings (defaultImageFolder : String)
    (i18nLang : String) : Settings :=
  { players := 1, folder := defaultImageFolder, pairs := 1, names := [],
    avatars := [], sound_enabled := true, language := i18nLang }

/-- The `last_settings` value assigned by `MemoryApp.start_game`
(memory.py lines 1419-1427): the configuration chosen for the game
being started.  The assignment writes an in-memory attribute; no file
or other persistent storage is written. -/
def startGameLastSettings (num_players : Nat) (folder : String)
    (num_pairs : Nat) (player_names player_avatars : List String)
    (sound_enabled : Bool) (language_code : String) : Settings :=
  { players := num_players, folder := folder, pairs := num_pairs,
    names := player_names, avatars := player_avatars,
    sound_enabled := sound_enabled, language := language_code }

/-- The menu prefill values `MemoryApp.init_menu_state` reads from
`last_settings` (memory.py lines 449-456, 481 and 486): player count
clamped to [1, len(PLAYER_COLORS)] = [1, 6], folder, pair count
clamped to at least 1, language code, remembered player names, and the
sound toggle.  (The avatar list additionally passes through the
filesystem-dependent `normalize_avatar_path` and is not modelled.) -/
structure MenuPrefill where
  initial_players : Nat
  initial_folder : String
  initial_pairs : Nat
  language_code : String
  last_player_names : List String
  sound_enabled : Bool
deriving DecidableEq

def init_menu_state (s : Settings) : MenuPrefill :=
  { initial_players := max 1 (min s.players 6),
    initial_folder := s.folder,
    initial_pairs := max 1 s.pairs,
    language_code := s.language,
    last_player_names := s.names,
    sound_enabled := s.sound_enabled }

/-- C8 counterexample: the settings record is not persisted across
sessions.  A session that starts a game with two players, a chosen
folder and three pairs holds that record in memory, but a fresh
application start rebuilds `last_settings` from built-in defaults
(players = 1, pairs = 1), so the next session's menu is not prefilled
with the previous session's configuration. -/
theorem last_settings_not_persisted :
    startGameLastSettings 2 "pics" 3 ["Ada", "Ben"] ["a.png", "b.png"]
        true "en" ≠
      initLastSettings "pics" "en" ∧
    (initLastSettings "pics" "en").players = 1 ∧
    init_menu_state (initLastSettings "pics" "en") ≠
      init_menu_state (startGameLastSettings 2 "pics" 3 ["Ada", "Ben"]
        ["a.png", "b.png"] true "en") := by
  refine ⟨?_, rfl, ?_⟩ <;> decide

/-- C8 (amended): the last-used settings record lives only in program
memory.  At startup it holds built-in defaults; when a game is started
it is overwritten with the chosen configuration, and rebuilding the
menu in the same session prefills from it, reproducing that
configuration exactly (player count within [1, 6] and pair count >= 1
pass through the clamps unchanged). -/
theorem last_settings_roundtrip_in_session (p k : Nat) (f lang : String)
    (names avatars : List String) (snd : Bool)
    (hp1 : 1 ≤ p) (hp6 : p ≤ 6) (hk : 1 ≤ k) :
    init_menu_state (startGameLastSettings p f k names avatars snd lang) =
      { initial_players := p, initial_folder := f, initial_pairs := k,
        language_code := lang, last_player_names := names,
        sound_enabled := snd } ∧
    initLastSettings f lang =
      startGameLastSettings 1 f 1 [] [] true lang := by
  constructor
  · simp only [init_menu_state, startGameLastSettings]
    congr 1 <;> omega
  · rfl

theorem last_settings_roundtrip_witness :
    (1 ≤ 2 ∧ 2 ≤ 6 ∧ 1 ≤ 3) ∧
    (init_menu_state (startGameLastSettings 2 "pics" 3 ["Ada", "Ben"]
        ["a.png", "b.png"] true "en") =
      { initial_players := 2, initial_folder := "pics", initial_pairs := 3,
        language_code := "en", last_player_names := ["Ada", "Ben"],
        sound_enabled := true } ∧
    initLastSettings "pics" "en" =
      startGameLastSettings 1 "pics" 1 [] [] true "en") :=
  ⟨⟨by decide, by decide, by decide⟩,
    last_settings_roundtrip_in_session 2 3 "pics" "en" ["Ada", "Ben"]
      ["a.png", "b.png"] true (by decide) (by decide) (by decide)⟩

/-- YAML value stored in a message catalog (i18n.py): a string, a
nested mapping, or some other non-string non-mapping value (number,
list, boolean).  A key that is missing or maps to YAML `null` gives
Python `None` in `dict.get`/`_resolve`; both are `Option.none` at the
lookup level here, which produces identical behaviour in `t`. -/
inductive YVal where
  | str (s : String)
  | dict (entries : List (String × YVal))
  | other

/-- Python `dict.get(p)` on a catalog mapping (keys are unique in a
YAML mapping; insertion order is irrelevant to `get`). -/
def lookupY (es : List (String × YVal)) (p : String) : Option YVal :=
  (es.find? (fun e => e.1 = p)).map Prod.snd

/-- Embedding of `I18n._resolve` (i18n.py lines 81-88): walk the key
parts; a non-mapping intermediate value gives `None`. -/
def resolveY : Option YVal → List String → Option YVal
  | cur, [] => cur
  | some (YVal.dict es), p :: ps => resolveY (lookupY es p) ps
  | _, _ :: _ => none

/-- The `I18n` attributes that `set_language` and `t` use: `messages`
(the loaded catalogs, a dict from language code to catalog mapping, as
an association list in insertion order, so that
`next(iter(self.messages))` is the head), the default locale and the
active language. -/
structure I18nState where
  messages : List (String × List (String × YVal))
  default : String
  lang : String

/-- Python `code in self.messages`. -/
def hasKey (m : List (String × List (String × YVal)))
    (k : String) : Bool :=
  m.any (fun e => e.1 = k)

/-- Python `self.messages.get(code, {})`. -/
def messagesGet (m : List (String × List (String × YVal)))
    (k : String) : List (String × YVal) :=
  ((m.find? (fun e => e.1 = k)).map Prod.snd).getD []

/-- Python `str.split(".")` (no maxsplit): split at every dot,
preserving empty segments; the empty string yields `[""]`. -/
def splitDots (s : String) : List String :=
  s.data.foldr
    (fun c acc =>
      match acc with
      | [] => [String.mk [c]]
      | hd :: tl =>
        if c = '.' then "" :: hd :: tl
        else String.mk (c :: hd.data) :: tl)
    [""]

/-- Python `str.lower()` on a character, for the ASCII range of the
language codes involved. -/
def lowerChar (c : Char) : Char :=
  if 'A' ≤ c ∧ c ≤ 'Z' then Char.ofNat (c.toNat + 32) else c

/-- Python `(code or "").strip().lower()` (i18n.py line 46): drop
leading and trailing whitespace, then lowercase. -/
def normalizeCode (code : String) : String :=
  String.mk
    ((((code.data.dropWhile Char.isWhitespace).reverse.dropWhile
      Char.isWhitespace).reverse).map lowerChar)

/-- Embedding of `I18n.set_language` (i18n.py lines 45-53): normalize
the code; when it is not a loaded catalog key, replace it by the
default (when loaded) or else the current language, and when that is
still not loaded and some catalog exists, by the first loaded code;
install the result and report whether the active language changed. -/
def I18n.set_language (st : I18nState) (code : String) :
    I18nState × Bool :=
  let n0 := normalizeCode code
  let n1 :=
    if hasKey st.messages n0 then n0
    else
      let n2 := if hasKey st.messages st.default then st.default
        else st.lang
      if ¬ hasKey st.messages n2 ∧ st.messages.isEmpty = false then
        (st.messages.headD ("", [])).1
      else n2
  ({ st with lang := n1 }, n1 != st.lang)

/-- Resolution of a dotted key in the catalog of language `code`:
`self._resolve(self.messages.get(code, {}), key.split("."))` as used
at i18n.py lines 59 and 61. -/
def resolveIn (st : I18nState) (code : String) (key : String) :
    Option YVal :=
  resolveY (some (YVal.dict (messagesGet st.messages code)))
    (splitDots key)

/-- Embedding of `I18n.t` (i18n.py lines 55-69) for a call without
named parameters (with empty `kwargs` the `str.format` branch is
skipped and the resolved string is returned as is): empty keys give
`""`; otherwise split the key on dots, resolve in the active catalog, consult the default
catalog only when the first resolution gave `None` and the default is
loaded, and return the raw key when the final value is not a
string. -/
def I18n.t (st : I18nState) (key : String) : String :=
  if key = "" then ""
  else
    let value := resolveIn st st.lang key
    let value2 :=
      if value.isNone ∧ hasKey st.messages st.default then
        resolveIn st st.default key
      else value
    match value2 with
    | some (YVal.str s) => s
    | _ => key

/-- Lookup chain as claim C9 words it: the string found under the key
in the active catalog; when the key does not resolve to a string
there, the string found in the default catalog; when it resolves to a
string in neither, the raw key. -/
def tClaimed (st : I18nState) (key : String) : String :=
  match resolveIn st st.lang key with
  | some (YVal.str s) => s
  | _ =>
    match resolveIn st st.default key with
    | some (YVal.str s) => s
    | _ => key

/-- Catalogs where the key "a" resolves to a nested mapping in the
active language and to a string in the default language. -/
def badCatalogs : I18nState :=
  { messages :=
      [("en", [("a", YVal.dict [("b", YVal.str "x")])]),
       ("de", [("a", YVal.str "hallo")])],
    default := "de", lang := "en" }

/-- C9 counterexample: when the key resolves in the active catalog to
a value that is not `None` but also not a string (here a nested
mapping), the code returns the raw key without consulting the default
catalog, while the claim requires the default catalog's string. -/
theorem i18n_t_claim_false :
    I18n.t badCatalogs "a" = "a" ∧
    tClaimed badCatalogs "a" = "hallo" ∧
    ("a" : String) ≠ "hallo" :=
  ⟨by decide, by decide, by decide⟩

/-- C9 (amended): for a non-empty key, `t` returns the resolved string
of the active catalog; the default catalog is consulted only when the
key resolves to nothing (`None`) in the active catalog and the default
locale is loaded, and its resolved string is then returned; in every
other case — a non-string resolved value in the active catalog, a
non-string or missing value in the consulted default catalog, or an
unloaded default locale — the raw key is returned. -/
theorem i18n_t_fallback_chain (st : I18nState) (key : String)
    (hk : key ≠ "") :
    (∀ v, resolveIn st st.lang key = some (YVal.str v) →
      I18n.t st key = v) ∧
    (resolveIn st st.lang key = none →
      hasKey st.messages st.default = true →
      ∀ v, resolveIn st st.default key = some (YVal.str v) →
        I18n.t st key = v) ∧
    (resolveIn st st.lang key = none →
      hasKey st.messages st.default = true →
      (∀ v, resolveIn st st.default key ≠ some (YVal.str v)) →
      I18n.t st key = key) ∧
    (resolveIn st st.lang key = none →
      hasKey st.messages st.default = false →
      I18n.t st key = key) ∧
    (∀ w, resolveIn st st.lang key = some w →
      (∀ v, w ≠ YVal.str v) → I18n.t st key = key) := by
  unfold I18n.t
  rw [if_neg hk]
  refine ⟨?_, ?_, ?_, ?_, ?_⟩
  · intro v hv
    simp [hv]
  · intro h0 hd v hv
    simp [h0, hd, hv]
  · intro h0 hd hnv
    simp only [h0, Option.isNone_none, true_and, hd, if_true]
  · intro h0 hd
    simp [h0, hd]
  · intro w hw hnv
    simp only [hw, Option.isNone_some, Bool.false_eq_true, false_and,
      if_false]
    cases w with
    | str v => exact absurd rfl (hnv v)
    | dict es => rfl
    | other => rfl

theorem i18n_t_fallback_witness :
    I18n.t badCatalogs "a.b" = "x" :=
  (i18n_t_fallback_chain badCatalogs "a.b" (by decide)).1 "x" (by rfl)

lemma hasKey_headD (m : List (String × List (String × YVal)))
    (hm : m ≠ []) : hasKey m ((m.headD ("", [])).1) = true := by
  cases m with
  | nil => exact absurd rfl hm
  | cons x xs => simp [hasKey]

/-- C10: after `set_language`, whenever at least one catalog is
loaded the active language is one of the loaded catalog keys; an
unknown code falls back to the default language (when the default is
loaded) instead of being installed; and the returned Boolean is true
exactly when the active language changed. -/
theorem set_language_keeps_lang_loaded (st : I18nState) (code : String) :
    (st.messages ≠ [] →
      hasKey st.messages (I18n.set_language st code).1.lang = true) ∧
    ((I18n.set_language st code).2 = true ↔
      (I18n.set_language st code).1.lang ≠ st.lang) ∧
    (hasKey st.messages (normalizeCode code) = false →
      hasKey st.messages st.default = true →
      (I18n.set_language st code).1.lang = st.default) := by
  refine ⟨?_, ?_, ?_⟩
  · intro hne
    unfold I18n.set_language
    dsimp only
    by_cases h0 : hasKey st.messages (normalizeCode code)
    · rw [if_pos h0]
      exact h0
    · rw [if_neg h0]
      by_cases hd : hasKey st.messages st.default
      · rw [if_pos hd]
        rw [if_neg (by simp [hd])]
        exact hd
      · rw [if_neg hd]
        by_cases hl : hasKey st.messages st.lang
        · rw [if_neg (by simp [hl])]
          exact hl
        · rw [if_pos ⟨by simp [hl], by simpa using hne⟩]
          exact hasKey_headD st.messages hne
  · unfold I18n.set_language
    dsimp only
    rw [bne_iff_ne]
  · intro h0 hd
    unfold I18n.set_language
    dsimp only
    rw [if_neg (by simp [h0]), if_pos hd, if_neg (by simp [hd])]

theorem set_language_keeps_lang_loaded_witness :
    hasKey badCatalogs.messages
      (I18n.set_language badCatalogs "FR").1.lang = true ∧
    (I18n.set_language badCatalogs "FR").1.lang = badCatalogs.default :=
  ⟨(set_language_keeps_lang_loaded badCatalogs "FR").1
      (by simp [badCatalogs]),
    (set_language_keeps_lang_loaded badCatalogs "FR").2.2 (by decide)
      (by decide)⟩
